import Mathlib

/-!
Shallow embedding of the USPTO trademark XML ingestion pipeline
(`scripts/load_xml.py`): date parsing, case-file record extraction,
intra-batch deduplication, the sorted bulk upsert, the deadlock-retry
loop of `upsert_batch`, and the per-file worker / coordinator layer.
Machine dates are plain `Nat` triples, the database is explicit state,
and fallible code returns `Option`.
-/

/-- Calendar date as stored by `datetime.date` (year, month, day). -/
structure Date where
  y : Nat
  m : Nat
  d : Nat
deriving DecidableEq

/-- Gregorian leap-year test used by `datetime`. -/
def isLeap (y : Nat) : Bool :=
  y % 4 = 0 && (y % 100 ≠ 0 || y % 400 = 0)

/-- Number of days of month `m` in year `y`, as `datetime` validates them. -/
def daysInMonth (y m : Nat) : Nat :=
  if m = 2 then (if isLeap y then 29 else 28)
  else if m = 4 ∨ m = 6 ∨ m = 9 ∨ m = 11 then 30
  else 31

/-- A `Date` value that `datetime.date` would accept. -/
def Date.valid (d : Date) : Prop :=
  1 ≤ d.y ∧ 1 ≤ d.m ∧ d.m ≤ 12 ∧ 1 ≤ d.d ∧ d.d ≤ daysInMonth d.y d.m

instance (d : Date) : Decidable d.valid := by
  unfold Date.valid; infer_instance

/-- Numeric value of a decimal digit character. -/
def digitVal (c : Char) : Nat := c.toNat - 48

/-- The validation `datetime.date(y, m, d)` performs: year at least 1,
month 1-12, day 1 to the month length; `none` models the `ValueError`. -/
def mkDate (y m d : Nat) : Option Date :=
  if 1 ≤ y ∧ 1 ≤ m ∧ m ≤ 12 ∧ 1 ≤ d ∧ d ≤ daysInMonth y m then some ⟨y, m, d⟩
  else none

/-- Embedding of `datetime.strptime(s, "%Y%m%d").date()` restricted to
8-character inputs: four digit year, two digit month, two digit day,
validated by `mkDate`; anything else is a `ValueError`, modelled as `none`. -/
def strptimeYMD (s : String) : Option Date :=
  match s.toList with
  | [c1, c2, c3, c4, c5, c6, c7, c8] =>
    if (c1.isDigit && c2.isDigit && c3.isDigit && c4.isDigit &&
        c5.isDigit && c6.isDigit && c7.isDigit && c8.isDigit) then
      mkDate (1000 * digitVal c1 + 100 * digitVal c2 + 10 * digitVal c3 + digitVal c4)
        (10 * digitVal c5 + digitVal c6)
        (10 * digitVal c7 + digitVal c8)
    else none
  | _ => none

/-- Embedding of `parse_date`: the argument is the result of `get_text`
(`None` for a missing element), a falsy or non-8-character string is
rejected up front, and an invalid `YYYYMMDD` string parses to `none`. -/
def parse_date : Option String → Option Date
  | none => none
  | some s => if s = "" ∨ s = "0" ∨ s.length ≠ 8 then none else strptimeYMD s

/-- Embedding of `get_bool` applied to a `get_text` result: only the
marker `"T"` yields `true`; a missing element or any other text is `false`. -/
def get_bool : Option String → Bool
  | none => false
  | some t => t = "T"

/-- Owner dict built for each `case-file-owner` element. The `address`
field is `' '.join(filter(None, ...))` over address lines 1-2, hence a
plain (possibly empty) string. -/
structure OwnerRec where
  entry_number : Option String := none
  party_type : Option String := none
  party_name : Option String := none
  legal_entity_type : Option String := none
  address : String := ""
  city : Option String := none
  state : Option String := none
  country : Option String := none
  postcode : Option String := none
  dba_aka : Option String := none
deriving DecidableEq

/-- Statement dict: both fields are present (pairs missing either are skipped). -/
structure StatementRec where
  type_code : String
  text : String
deriving DecidableEq

/-- The scalar columns of the `trademarks` table, in schema order: exactly
the values `_do_upsert` maps into one `VALUES` tuple. -/
structure RowVals where
  serial_number : String
  registration_number : Option String := none
  transaction_date : Option Date := none
  mark_identification : Option String := none
  mark_drawing_code : Option String := none
  standard_characters : Bool := false
  status_code : Option String := none
  status_date : Option Date := none
  filing_date : Option Date := none
  registration_date : Option Date := none
  publication_date : Option Date := none
  abandonment_date : Option Date := none
  cancellation_date : Option Date := none
  renewal_date : Option Date := none
  cancellation_code : Option String := none
  is_trademark : Bool := false
  is_service_mark : Bool := false
  is_collective_trademark : Bool := false
  is_collective_service_mark : Bool := false
  is_collective_membership_mark : Bool := false
  is_certification_mark : Bool := false
  is_supplemental_register : Bool := false
  has_color : Bool := false
  is_3d : Bool := false
  basis_use_in_commerce : Bool := false
  basis_intent_to_use : Bool := false
  basis_foreign_application : Bool := false
  basis_foreign_registration : Bool := false
  basis_international_registration : Bool := false
  cancellation_pending : Bool := false
  opposition_pending : Bool := false
  interference_pending : Bool := false
  concurrent_use_pending : Bool := false
  section_8_accepted : Bool := false
  section_15_acknowledged : Bool := false
  section_2f : Bool := false
  attorney_name : Option String := none
  attorney_docket_number : Option String := none
  domestic_representative : Option String := none
  international_classes : Option (List String) := none
  us_classes : Option (List String) := none
  primary_class : Option String := none
  first_use_anywhere_date : Option Date := none
  first_use_in_commerce_date : Option Date := none
  design_codes : Option (List String) := none
  owner_name : Option String := none
  owner_type : Option String := none
  owner_legal_entity_type : Option String := none
  owner_address : Option String := none
  owner_city : Option String := none
  owner_state : Option String := none
  owner_country : Option String := none
  owner_postcode : Option String := none
  correspondent_address : Option String := none
  ir_number : Option String := none
  ir_registration_date : Option Date := none
  ir_status_code : Option String := none
deriving DecidableEq

/-- The record dict produced by `parse_case_file`: the scalar columns plus
the retained `owners` and `statements` lists destined for the sub-tables.
A key missing from the dict is `none` (or `false` for a flag), matching
the `.get(..., default)` reads in `_do_upsert`. -/
structure Record extends RowVals where
  owners : List OwnerRec := []
  statements : List StatementRec := []
deriving DecidableEq

/-- Projection of a record onto the columns written to `trademarks`:
the `owners` and `statements` lists are simply not part of the row. -/
def rowOfRecord (r : Record) : RowVals := r.toRowVals

/-- The `case-file-header` child texts that `parse_case_file` reads, each
as the `get_text` result for the corresponding tag. -/
structure HeaderElem where
  mark_identification : Option String := none
  mark_drawing_code : Option String := none
  standard_characters_claimed_in : Option String := none
  status_code : Option String := none
  status_date : Option String := none
  filing_date : Option String := none
  registration_date : Option String := none
  published_for_opposition_date : Option String := none
  abandonment_date : Option String := none
  cancellation_date : Option String := none
  renewal_date : Option String := none
  cancellation_code : Option String := none
  trademark_in : Option String := none
  service_mark_in : Option String := none
  collective_trademark_in : Option String := none
  collective_service_mark_in : Option String := none
  collective_membership_mark_in : Option String := none
  certification_mark_in : Option String := none
  supplemental_register_in : Option String := none
  color_drawing_current_in : Option String := none
  drawing_3d_current_in : Option String := none
  use_application_currently_in : Option String := none
  intent_to_use_current_in : Option String := none
  filing_basis_current_44d_in : Option String := none
  filing_basis_current_44e_in : Option String := none
  filing_basis_current_66a_in : Option String := none
  cancellation_pending_in : Option String := none
  opposition_pending_in : Option String := none
  interference_pending_in : Option String := none
  concurrent_use_proceeding_in : Option String := none
  section_8_accepted_in : Option String := none
  section_15_acknowledged_in : Option String := none
  section_2f_in : Option String := none
  attorney_name : Option String := none
  attorney_docket_number : Option String := none
  domestic_representative_name : Option String := none
deriving DecidableEq

/-- One `classification` group: `get_all_text` results for the repeated
code tags and `get_text` results for the scalar tags. -/
structure ClassificationElem where
  international_codes : List String := []
  us_codes : List String := []
  primary_code : Option String := none
  first_use_anywhere_date : Option String := none
  first_use_in_commerce_date : Option String := none
deriving DecidableEq

/-- One `design-search` child. -/
structure DesignSearchElem where
  code : Option String := none
deriving DecidableEq

/-- One `case-file-owner` child. -/
structure OwnerElem where
  entry_number : Option String := none
  party_type : Option String := none
  party_name : Option String := none
  legal_entity_type_code : Option String := none
  address_1 : Option String := none
  address_2 : Option String := none
  city : Option String := none
  state : Option String := none
  country : Option String := none
  postcode : Option String := none
  dba_aka_text : Option String := none
deriving DecidableEq

/-- The `correspondent` child with its five address lines. -/
structure CorrespondentElem where
  address_1 : Option String := none
  address_2 : Option String := none
  address_3 : Option String := none
  address_4 : Option String := none
  address_5 : Option String := none
deriving DecidableEq

/-- One `case-file-statement` child. -/
structure StatementElem where
  type_code : Option String := none
  text : Option String := none
deriving DecidableEq

/-- The `international-registration` child. -/
structure IRElem where
  international_registration_number : Option String := none
  international_registration_date : Option String := none
  international_status_code : Option String := none
deriving DecidableEq

/-- A `case-file` element as `parse_case_file` consumes it: each field is
the `find` result for the corresponding child (`none` when absent), and
texts are what `get_text` returns. -/
structure CaseFileElem where
  serial_number : Option String := none
  registration_number : Option String := none
  transaction_date : Option String := none
  header : Option HeaderElem := none
  classifications : Option (List ClassificationElem) := none
  design_searches : Option (List DesignSearchElem) := none
  case_file_owners : Option (List OwnerElem) := none
  correspondent : Option CorrespondentElem := none
  case_file_statements : Option (List StatementElem) := none
  international_registration : Option IRElem := none
deriving DecidableEq

/-- Embedding of `' '.join(filter(None, parts))` / `'\n'.join(...)`. -/
def joinSkippingNone (sep : String) (parts : List (Option String)) : String :=
  String.intercalate sep (parts.filterMap id)

/-- Embedding of Python's `list(set(xs))`: the duplicates are removed;
the (hash-dependent, unspecified) ordering is modelled as `List.dedup`. -/
def pySet (xs : List String) : List String := xs.dedup

/-- Accumulator threaded through the classification loop of
`parse_case_file`: the growing code lists plus the first-wins fields. -/
structure ClassAcc where
  intl : List String
  us : List String
  primary : Option String
  fua : Option Date
  fuc : Option Date

/-- The first-wins update `if field is None: field = value` of the
classification loop. -/
def orFirst {α : Type} (a o : Option α) : Option α :=
  match a with
  | some x => some x
  | none => o

/-- One iteration of the classification loop: `extend` both code lists,
and fill each first-wins field only while it is still `None`. -/
def classStep (acc : ClassAcc) (c : ClassificationElem) : ClassAcc :=
  { intl := acc.intl ++ c.international_codes
    us := acc.us ++ c.us_codes
    primary := orFirst acc.primary c.primary_code
    fua := orFirst acc.fua (parse_date c.first_use_anywhere_date)
    fuc := orFirst acc.fuc (parse_date c.first_use_in_commerce_date) }

/-- Embedding of the owner-dict construction inside `parse_case_file`. -/
def parseOwner (o : OwnerElem) : OwnerRec :=
  { entry_number := o.entry_number
    party_type := o.party_type
    party_name := o.party_name
    legal_entity_type := o.legal_entity_type_code
    address := joinSkippingNone " " [o.address_1, o.address_2]
    city := o.city
    state := o.state
    country := o.country
    postcode := o.postcode
    dba_aka := o.dba_aka_text }

/-- Embedding of the statement loop: keep `(type, text)` only when both
fields are present. -/
def parseStatements (stmts : List StatementElem) : List StatementRec :=
  stmts.filterMap (fun st =>
    match st.type_code, st.text with
    | some tc, some tx => some ⟨tc, tx⟩
    | _, _ => none)

/-- Non-inlined `Option.bind`, used for the many `get_text(child, tag)`
reads that navigate through an optional child element. -/
def obind {α β : Type} (x : Option α) (f : α → Option β) : Option β :=
  match x with
  | none => none
  | some a => f a

/-- Non-inlined `Option.map`. -/
def omap {α β : Type} (f : α → β) (x : Option α) : Option β :=
  match x with
  | none => none
  | some a => some (f a)

/-- Header flag read: `get_bool(header, tag)` when the header is present,
`False` (the dict never gets the key, read back with default `False`) otherwise. -/
def hflag (h : Option HeaderElem) (f : HeaderElem → Option String) : Bool :=
  match h with
  | some hh => get_bool (f hh)
  | none => false

/-- Embedding of `parse_case_file`: `None` when the serial number is
missing (or falsy), otherwise the record dict with the header fields, the
classification fold, design codes, owners (first one denormalized),
correspondent address, statements and international registration. -/
def parse_case_file (e : CaseFileElem) : Option Record :=
  match e.serial_number with
  | none => none
  | some serial =>
    if serial = "" then none else
    let reg0 := e.registration_number
    let reg := if reg0 = some "0000000" then none else reg0
    let groups := e.classifications.getD []
    let cl := groups.foldl classStep ⟨[], [], none, none, none⟩
    let design_codes :=
      (e.design_searches.getD []).filterMap (fun ds => ds.code)
    let owners := (e.case_file_owners.getD []).map parseOwner
    let statements := parseStatements (e.case_file_statements.getD [])
    let row : RowVals :=
      { serial_number := serial
        registration_number := reg
        transaction_date := parse_date e.transaction_date
        mark_identification := obind e.header (·.mark_identification)
        mark_drawing_code := obind e.header (·.mark_drawing_code)
        standard_characters := hflag e.header (·.standard_characters_claimed_in)
        status_code := obind e.header (·.status_code)
        status_date := parse_date (obind e.header (·.status_date))
        filing_date := parse_date (obind e.header (·.filing_date))
        registration_date := parse_date (obind e.header (·.registration_date))
        publication_date := parse_date (obind e.header (·.published_for_opposition_date))
        abandonment_date := parse_date (obind e.header (·.abandonment_date))
        cancellation_date := parse_date (obind e.header (·.cancellation_date))
        renewal_date := parse_date (obind e.header (·.renewal_date))
        cancellation_code := obind e.header (·.cancellation_code)
        is_trademark := hflag e.header (·.trademark_in)
        is_service_mark := hflag e.header (·.service_mark_in)
        is_collective_trademark := hflag e.header (·.collective_trademark_in)
        is_collective_service_mark := hflag e.header (·.collective_service_mark_in)
        is_collective_membership_mark := hflag e.header (·.collective_membership_mark_in)
        is_certification_mark := hflag e.header (·.certification_mark_in)
        is_supplemental_register := hflag e.header (·.supplemental_register_in)
        has_color := hflag e.header (·.color_drawing_current_in)
        is_3d := hflag e.header (·.drawing_3d_current_in)
        basis_use_in_commerce := hflag e.header (·.use_application_currently_in)
        basis_intent_to_use := hflag e.header (·.intent_to_use_current_in)
        basis_foreign_application := hflag e.header (·.filing_basis_current_44d_in)
        basis_foreign_registration := hflag e.header (·.filing_basis_current_44e_in)
        basis_international_registration := hflag e.header (·.filing_basis_current_66a_in)
        cancellation_pending := hflag e.header (·.cancellation_pending_in)
        opposition_pending := hflag e.header (·.opposition_pending_in)
        interference_pending := hflag e.header (·.interference_pending_in)
        concurrent_use_pending := hflag e.header (·.concurrent_use_proceeding_in)
        section_8_accepted := hflag e.header (·.section_8_accepted_in)
        section_15_acknowledged := hflag e.header (·.section_15_acknowledged_in)
        section_2f := hflag e.header (·.section_2f_in)
        attorney_name := obind e.header (·.attorney_name)
        attorney_docket_number := obind e.header (·.attorney_docket_number)
        domestic_representative := obind e.header (·.domestic_representative_name)
        international_classes :=
          if cl.intl = [] then none else some (pySet cl.intl)
        us_classes :=
          if cl.us = [] then none else some (pySet cl.us)
        primary_class := cl.primary
        first_use_anywhere_date := cl.fua
        first_use_in_commerce_date := cl.fuc
        design_codes := if design_codes = [] then none else some design_codes
        owner_name := obind owners.head? (·.party_name)
        owner_type := obind owners.head? (·.party_type)
        owner_legal_entity_type := obind owners.head? (·.legal_entity_type)
        owner_address := omap (·.address) owners.head?
        owner_city := obind owners.head? (·.city)
        owner_state := obind owners.head? (·.state)
        owner_country := obind owners.head? (·.country)
        owner_postcode := obind owners.head? (·.postcode)
        correspondent_address :=
          omap (fun c =>
            joinSkippingNone "\n"
              [c.address_1, c.address_2, c.address_3, c.address_4, c.address_5])
            e.correspondent
        ir_number := obind e.international_registration
          (·.international_registration_number)
        ir_registration_date := parse_date (obind e.international_registration
          (·.international_registration_date))
        ir_status_code := obind e.international_registration
          (·.international_status_code) }
    some { toRowVals := row, owners := owners, statements := statements }

/-- The sentinel used by `_deduplicate_records` for a missing date:
`date(1800, 1, 1)`. -/
def date1800 : Date := ⟨1800, 1, 1⟩

/-- Sort key of `_deduplicate_records`: `(transaction_date, status_date)`
with `None` replaced by the 1800-01-01 sentinel. -/
def date_key (r : Record) : Date × Date :=
  (r.transaction_date.getD date1800, r.status_date.getD date1800)

/-- Strict comparison of `datetime.date` values (lexicographic on
year, month, day), as a boolean. -/
def ltDate (a b : Date) : Bool :=
  a.y < b.y || (a.y = b.y && (a.m < b.m || (a.m = b.m && a.d < b.d)))

/-- Strict comparison of Python date pairs (tuple lexicographic order). -/
def ltKey (a b : Date × Date) : Bool :=
  ltDate a.1 b.1 || (a.1 = b.1 && ltDate a.2 b.2)

/-- One step of the `defaultdict(list)` grouping: append the record to its
serial's group, or open a new group at the end (dict insertion order). -/
def addToGroup : List (String × List Record) → Record → List (String × List Record)
  | [], r => [(r.serial_number, [r])]
  | (k, g) :: rest, r =>
    if r.serial_number = k then (k, g ++ [r]) :: rest
    else (k, g) :: addToGroup rest r

/-- Embedding of the `by_serial` grouping loop of `_deduplicate_records`. -/
def groupBySerial (records : List Record) : List (String × List Record) :=
  records.foldl addToGroup []

/-- The entry kept by `entries.sort(key=date_key, reverse=True)` followed
by `entries[0]`: since Python's sort is stable, this is the first entry of
the group (in original order) whose key is maximal. -/
def pickNewest (r : Record) (rest : List Record) : Record :=
  rest.foldl (fun best x => if ltKey (date_key best) (date_key x) then x else best) r

/-- The `if len(entries) == 1 ... else sort-and-take-head` body of the
per-group loop of `_deduplicate_records` (`none` on the impossible empty
group). -/
def pickGroup : String × List Record → Option Record
  | (_, []) => none
  | (_, r :: rest) => some (if rest.isEmpty then r else pickNewest r rest)

/-- Embedding of `_deduplicate_records`: one record per serial number, the
newest by `(transaction_date, status_date)` with the sentinel floor. -/
def _deduplicate_records (records : List Record) : List Record :=
  (groupBySerial records).filterMap pickGroup

/-- Association lookup in the grouped list (`by_serial[s]`). -/
def lookupGroup : List (String × List Record) → String → List Record
  | [], _ => []
  | (k, g) :: rest, s => if k = s then g else lookupGroup rest s

/-- The serials present in the grouped list, in insertion order. -/
def keysOf (l : List (String × List Record)) : List String :=
  l.map Prod.fst

/-- Python's string comparison: lexicographic on the code points, with a
proper prefix sorting first. -/
def ltChars : List Char → List Char → Bool
  | _, [] => false
  | [], _ :: _ => true
  | a :: as, b :: bs =>
    if a.toNat < b.toNat then true
    else if b.toNat < a.toNat then false
    else ltChars as bs

/-- Sort order used by `sorted(unique_records, key=lambda r: r["serial_number"])`:
the (non-strict) Python string order on the serial numbers. -/
def serialLE (a b : Record) : Prop :=
  ltChars b.serial_number.data a.serial_number.data = false

instance : DecidableRel serialLE := fun a b =>
  inferInstanceAs (Decidable (ltChars b.serial_number.data a.serial_number.data = false))

/-- Embedding of the `sorted(...)` call of `_do_upsert`. The serials in a
deduplicated batch are distinct, so any stable comparison sort and this
insertion sort produce the same list as Python's Timsort. -/
def sortBySerial (l : List Record) : List Record := List.insertionSort serialLE l

/-- The sequence of `VALUES` tuples that `_do_upsert` builds, in the order
in which `execute_values` writes them: deduplicate, sort by serial number,
project each record onto the mapped columns. -/
def upsertWriteList (records : List Record) : List RowVals :=
  (sortBySerial (_deduplicate_records records)).map rowOfRecord

/-- A row of the `trademarks` table: the mapped column values plus the two
server-assigned timestamps. -/
structure TMRow where
  vals : RowVals
  created_at : Nat
  updated_at : Nat
deriving DecidableEq

/-- A row of the `trademark_owners` table (never written by the loader). -/
structure OwnerTableRow where
  serial_number : String
  entry_number : Option String := none
  party_type : Option String := none
  party_name : Option String := none
  legal_entity_type : Option String := none
  address : Option String := none
  city : Option String := none
  state : Option String := none
  country : Option String := none
  postcode : Option String := none
  dba_aka : Option String := none
deriving DecidableEq

/-- A row of the `trademark_statements` table (never written by the loader). -/
structure StmtTableRow where
  serial_number : String
  type_code : Option String := none
  text : Option String := none
deriving DecidableEq

/-- The database state the loader writes against. -/
structure DB where
  trademarks : List TMRow := []
  trademark_owners : List OwnerTableRow := []
  trademark_statements : List StmtTableRow := []
deriving DecidableEq

/-- The freshly initialized database. -/
def dbEmpty : DB := {}

/-- Lookup of the (unique) `trademarks` row with the given primary key. -/
def lookupTM (tbl : List TMRow) (s : String) : Option TMRow :=
  tbl.find? (fun row => row.vals.serial_number = s)

/-- The `created_at` a row ends up with after an upsert at time `t`,
given what the lookup found before: kept on conflict, `t` on insert. -/
def createdOf (prev : Option TMRow) (t : Nat) : Nat :=
  match prev with
  | some row => row.created_at
  | none => t

/-- Effect of one `VALUES` tuple under `INSERT ... ON CONFLICT
(serial_number) DO UPDATE`: an existing row keeps its position and
`created_at` but has every mapped column overwritten and `updated_at`
set to the write time; otherwise a new row is appended with both
timestamps set to the write time. -/
def upsertRow : List TMRow → RowVals → Nat → List TMRow
  | [], v, t => [⟨v, t, t⟩]
  | row :: tl, v, t =>
    if row.vals.serial_number = v.serial_number then ⟨v, row.created_at, t⟩ :: tl
    else row :: upsertRow tl v t

/-- The whole `execute_values` statement: the tuples applied in order. -/
def foldUpsert (tbl : List TMRow) (vs : List RowVals) (t : Nat) : List TMRow :=
  vs.foldl (fun acc v => upsertRow acc v t) tbl

/-- Embedding of `_do_upsert` at write time `t`: deduplicate, sort, upsert
the trademark rows, commit, and return `len(records)` — the length of the
argument list *before* deduplication. Only the `trademarks` table is
touched: the function contains no INSERT for the owner or statement
sub-tables. -/
def _do_upsert (db : DB) (records : List Record) (t : Nat) : DB × Nat :=
  ({ db with trademarks := foldUpsert db.trademarks (upsertWriteList records) t },
   records.length)

/-- What one attempt of the `upsert_batch` loop runs into. -/
inductive AttemptOutcome
  | success
  | deadlock
  | lockTimeout
  | otherError
deriving DecidableEq

/-- The exception classes distinguished by `upsert_batch`. -/
inductive DBErr
  | deadlock
  | lockTimeout
  | otherError
deriving DecidableEq

/-- Observable outcome of one `upsert_batch` call: how many loop
iterations ran, the backoff sleeps in order, how many rollbacks and
connection closes happened, and the returned count or raised error. -/
structure RunResult where
  attempts : Nat
  sleeps : List ℚ
  rollbacks : Nat
  closes : Nat
  result : Except DBErr Nat

/-- The `for attempt in range(max_retries)` loop of `upsert_batch`.
`rem` is the number of iterations left (`attempt + rem = maxRetries`),
`outcome` says what each attempt runs into, and `jitter` is the value
drawn by `random.uniform(0, 1)` on each failed attempt. On a deadlock or
lock timeout the connection is rolled back and closed; if another
iteration remains the loop sleeps `2 ** attempt + jitter attempt` and
retries, otherwise it re-raises. Any other error rolls back, closes and
propagates immediately. If the loop body never runs (`maxRetries = 0`)
the function falls through and returns 0. -/
def runLoop (batch : List Record) (db : DB) (t : Nat) (outcome : Nat → AttemptOutcome)
    (jitter : Nat → ℚ) (maxRetries : Nat) :
    Nat → Nat → List ℚ → Nat → Nat → RunResult
  | attempt, 0, sleeps, rbs, cls => ⟨attempt, sleeps.reverse, rbs, cls, Except.ok 0⟩
  | attempt, rem + 1, sleeps, rbs, cls =>
    match outcome attempt with
    | .success =>
      ⟨attempt + 1, sleeps.reverse, rbs, cls + 1, Except.ok (_do_upsert db batch t).2⟩
    | .deadlock =>
      if attempt + 1 < maxRetries then
        runLoop batch db t outcome jitter maxRetries (attempt + 1) rem
          (((2 : ℚ) ^ attempt + jitter attempt) :: sleeps) (rbs + 1) (cls + 1)
      else ⟨attempt + 1, sleeps.reverse, rbs + 1, cls + 1, Except.error DBErr.deadlock⟩
    | .lockTimeout =>
      if attempt + 1 < maxRetries then
        runLoop batch db t outcome jitter maxRetries (attempt + 1) rem
          (((2 : ℚ) ^ attempt + jitter attempt) :: sleeps) (rbs + 1) (cls + 1)
      else ⟨attempt + 1, sleeps.reverse, rbs + 1, cls + 1, Except.error DBErr.lockTimeout⟩
    | .otherError =>
      ⟨attempt + 1, sleeps.reverse, rbs + 1, cls + 1, Except.error DBErr.otherError⟩

/-- Embedding of `upsert_batch`: an empty batch returns 0 immediately,
otherwise the retry loop runs with `attempt = 0`. -/
def upsert_batch (batch : List Record) (maxRetries : Nat) (outcome : Nat → AttemptOutcome)
    (jitter : Nat → ℚ) (db : DB) (t : Nat) : RunResult :=
  if batch.isEmpty then ⟨0, [], 0, 0, Except.ok 0⟩
  else runLoop batch db t outcome jitter maxRetries 0 maxRetries [] 0 0

/-- What `iterparse` delivers next while streaming a document: a complete
`case-file` element, or the point at which the underlying XML is
malformed and `ET.ParseError` is raised. -/
inductive XmlItem
  | caseFile (e : CaseFileElem)
  | malformed

/-- The count returned by a successful `upsert_batch` call on this batch:
`_do_upsert` commits and returns `len(records)`. -/
def upsertCount (records : List Record) : Nat :=
  (_do_upsert dbEmpty records 0).2

/-- The streaming loop of `process_xml_file` over the remaining items,
carrying the `records` buffer and `total_processed`. A full buffer
(`len(records) >= BATCH_SIZE`) is flushed through `upsert_batch`; on a
document-level `ET.ParseError` the error is logged and swallowed, the
unflushed buffer is lost, and the running total so far is returned; at end
of document a non-empty remainder is flushed. Upserts are taken as
succeeding (retry exhaustion is a separate concern modelled in `runLoop`). -/
def processItems (batchSize : Nat) : List XmlItem → List Record → Nat → Nat
  | [], buf, acc => if buf.isEmpty then acc else acc + upsertCount buf
  | XmlItem.malformed :: _, _, acc => acc
  | XmlItem.caseFile e :: rest, buf, acc =>
    match parse_case_file e with
    | none => processItems batchSize rest buf acc
    | some r =>
      let buf' := buf ++ [r]
      if batchSize ≤ buf'.length then
        processItems batchSize rest [] (acc + upsertCount buf')
      else processItems batchSize rest buf' acc

/-- Embedding of `process_xml_file`: stream the document and return the
count of records processed. -/
def process_xml_file (batchSize : Nat) (doc : List XmlItem) : Nat :=
  processItems batchSize doc [] 0

/-- A zip entry: its name inside the archive and the document it holds. -/
structure ZipEntry where
  name : String
  doc : List XmlItem

/-- What a source path refers to. The dispatch on the `.zip` / `.xml`
filename suffix in `worker_process_file` is folded into the constructor;
`opaqueFile` is any other extension. -/
inductive FileContent
  | xmlDoc (doc : List XmlItem)
  | zipArchive (entries : List ZipEntry)
  | opaqueFile

/-- A source file handed to a worker. -/
structure SourceFile where
  path : String
  content : FileContent

/-- Embedding of `process_zip_file`: extract and process every `.xml`
entry, summing the counts. -/
def process_zip_file (batchSize : Nat) (entries : List ZipEntry) : Nat :=
  (entries.filter (fun en => en.name.endsWith ".xml")).foldl
    (fun acc en => acc + process_xml_file batchSize en.doc) 0

/-- Embedding of `worker_process_file`: the `(file, count, error)` triple
collected by the coordinator. With upserts succeeding, the only exception
a worker can see — the document-level parse error — is already swallowed
inside `process_xml_file`, so the error slot is `none`. -/
def worker_process_file (batchSize : Nat) (f : SourceFile) : String × Nat × Option String :=
  match f.content with
  | FileContent.zipArchive entries => (f.path, process_zip_file batchSize entries, none)
  | FileContent.xmlDoc doc => (f.path, process_xml_file batchSize doc, none)
  | FileContent.opaqueFile => (f.path, 0, none)

/-- Embedding of `process_files_parallel`: every file goes through a
worker, the per-file results are collected, and `total_processed` sums the
counts of the results whose error slot is empty. Completion order affects
neither the set of results nor the total, so the fan-out is modelled in
submission order. -/
def process_files_parallel (batchSize : Nat) (files : List SourceFile) :
    List (String × Nat × Option String) × Nat :=
  let results := files.map (worker_process_file batchSize)
  (results,
   results.foldl (fun acc res =>
     match res.2.2 with
     | none => acc + res.2.1
     | some _ => acc) 0)

/-- First non-`None` value of a sequence, the way the first-wins fields of
the classification loop accumulate. -/
def firstNonNull {α : Type} (xs : List (Option α)) : Option α :=
  xs.foldl orFirst none

/-- Concatenation of the per-group code lists, in loop order, mirroring
`intl_classes.extend(...)` / `us_classes.extend(...)`. -/
def allCodes (f : ClassificationElem → List String) (groups : List ClassificationElem) :
    List String :=
  groups.foldl (fun acc c => acc ++ f c) []

/-- Test record with only a serial number. -/
def rec1 : Record := { serial_number := "75000001" }

/-- Same-serial pair from the dedup-determinism property: transaction
dates 2024-01-01 and 2024-06-01. -/
def cJan : Record := { serial_number := "75000002", transaction_date := some ⟨2024, 1, 1⟩ }

/-- The later twin of `cJan`. -/
def cJun : Record := { serial_number := "75000002", transaction_date := some ⟨2024, 6, 1⟩ }

/-- A record with neither transaction date nor status date. -/
def rNullNull : Record :=
  { serial_number := "75000003", mark_identification := some "FIRST" }

/-- Same serial as `rNullNull` but with the real transaction date
1800-01-01 — exactly the sentinel the deduplicator substitutes for null. -/
def rSentinel : Record :=
  { serial_number := "75000003", transaction_date := some ⟨1800, 1, 1⟩,
    mark_identification := some "SECOND" }

/-- Same serial as `rNullNull` with a genuinely newer transaction date. -/
def rNewer : Record :=
  { serial_number := "75000003", transaction_date := some ⟨2024, 1, 1⟩,
    mark_identification := some "THIRD" }

/-- A record carrying one owner sub-record and one statement sub-record. -/
def recOS : Record :=
  { serial_number := "90000001",
    owners := [{ entry_number := some "1", party_name := some "ACME LLC" }],
    statements := [⟨"GS0391", "Widgets"⟩] }

/-- Records whose serials arrive in descending order. -/
def recB : Record := { serial_number := "70000003" }

/-- The record sorting before `recB`. -/
def recA : Record := { serial_number := "70000002" }

/-- A minimal well-formed case-file element. -/
def eSimple : CaseFileElem := { serial_number := some "70000001" }

/-- A case-file element with two classification groups that both carry
international code `"025"`. -/
def e025 : CaseFileElem :=
  { serial_number := some "70000004",
    classifications := some
      [{ international_codes := ["025"], us_codes := ["022"] },
       { international_codes := ["025", "014"], us_codes := ["022"],
         primary_code := some "025",
         first_use_anywhere_date := some "20200102" }] }

/-- The record `parse_case_file` produces for `e025`. -/
def r025 : Record :=
  { serial_number := "70000004",
    international_classes := some ["025", "014"],
    us_classes := some ["022"],
    primary_class := some "025",
    first_use_anywhere_date := some ⟨2020, 1, 2⟩ }

/-- A healthy single-record source file. -/
def fGood1 : SourceFile := ⟨"f1.xml", FileContent.xmlDoc [XmlItem.caseFile eSimple]⟩

/-- A source file whose document is malformed after one good record. -/
def fCorrupt : SourceFile :=
  ⟨"f2.xml", FileContent.xmlDoc [XmlItem.caseFile eSimple, XmlItem.malformed]⟩

/-- A second healthy source file. -/
def fGood3 : SourceFile := ⟨"f3.xml", FileContent.xmlDoc [XmlItem.caseFile eSimple]⟩

/-- Outcome trace with deadlocks on the first five attempts. -/
def fiveDeadlocksThenSuccess (n : Nat) : AttemptOutcome :=
  if n < 5 then AttemptOutcome.deadlock else AttemptOutcome.success

/-- Outcome trace with deadlocks on the first four attempts only. -/
def fourDeadlocksThenSuccess (n : Nat) : AttemptOutcome :=
  if n < 4 then AttemptOutcome.deadlock else AttemptOutcome.success

/-- Outcome trace with lock-wait timeouts on the first five attempts. -/
def fiveLockTimeoutsThenSuccess (n : Nat) : AttemptOutcome :=
  if n < 5 then AttemptOutcome.lockTimeout else AttemptOutcome.success

/-- Outcome trace alternating both transient error kinds, then success. -/
def mixedTransientsThenSuccess : Nat → AttemptOutcome
  | 0 => AttemptOutcome.deadlock
  | 1 => AttemptOutcome.lockTimeout
  | 2 => AttemptOutcome.deadlock
  | 3 => AttemptOutcome.lockTimeout
  | _ => AttemptOutcome.success

/-- Outcome trace where every attempt succeeds. -/
def alwaysSuccess (_ : Nat) : AttemptOutcome := AttemptOutcome.success

/-- Jitter oracle that always draws 0. -/
def zeroJitter (_ : Nat) : ℚ := 0


theorem ltKey_irrefl (a : Date × Date) : ltKey a a = false := by
  obtain ⟨⟨x1, x2, x3⟩, ⟨y1, y2, y3⟩⟩ := a
  simp [ltKey, ltDate]

theorem ltKey_trans {a b c : Date × Date} (h1 : ltKey a b = true)
    (h2 : ltKey b c = true) : ltKey a c = true := by
  obtain ⟨⟨a1, a2, a3⟩, ⟨a4, a5, a6⟩⟩ := a
  obtain ⟨⟨b1, b2, b3⟩, ⟨b4, b5, b6⟩⟩ := b
  obtain ⟨⟨c1, c2, c3⟩, ⟨c4, c5, c6⟩⟩ := c
  simp [ltKey, ltDate, Date.mk.injEq] at h1 h2 ⊢
  omega

theorem ltKey_lt_of_not_lt {a b c : Date × Date} (h1 : ltKey a b = true)
    (h2 : ltKey c b = false) : ltKey a c = true := by
  obtain ⟨⟨a1, a2, a3⟩, ⟨a4, a5, a6⟩⟩ := a
  obtain ⟨⟨b1, b2, b3⟩, ⟨b4, b5, b6⟩⟩ := b
  obtain ⟨⟨c1, c2, c3⟩, ⟨c4, c5, c6⟩⟩ := c
  simp [ltKey, ltDate, Date.mk.injEq] at h1 h2 ⊢
  omega

theorem pickNewest_cons (r z : Record) (zs : List Record) :
    pickNewest r (z :: zs) =
      pickNewest (if ltKey (date_key r) (date_key z) then z else r) zs := rfl

theorem pickNewest_mem (r : Record) (rest : List Record) :
    pickNewest r rest = r ∨ pickNewest r rest ∈ rest := by
  induction rest generalizing r with
  | nil => exact Or.inl rfl
  | cons z zs ih =>
    rw [pickNewest_cons]
    rcases ih (if ltKey (date_key r) (date_key z) then z else r) with h | h
    · rw [h]
      by_cases hlt : ltKey (date_key r) (date_key z) = true
      · simp [hlt]
      · simp [hlt]
    · exact Or.inr (List.mem_cons_of_mem z h)

theorem pickNewest_max (r : Record) (rest : List Record) :
    ∀ x ∈ r :: rest, ltKey (date_key (pickNewest r rest)) (date_key x) = false := by
  induction rest generalizing r with
  | nil =>
    intro x hx
    simp only [List.mem_cons, List.not_mem_nil, or_false] at hx
    subst hx
    exact ltKey_irrefl _
  | cons z zs ih =>
    intro x hx
    rw [pickNewest_cons]
    simp only [List.mem_cons] at hx
    by_cases hlt : ltKey (date_key r) (date_key z) = true
    · rw [if_pos hlt]
      rcases hx with hx | hx | hx
      · -- x = r, which already lost to z: the pick cannot lose to it
        subst hx
        have hz := ih z z (by simp)
        cases hb : ltKey (date_key (pickNewest z zs)) (date_key x) with
        | false => rfl
        | true =>
          have habs : ltKey (date_key (pickNewest z zs)) (date_key z) = true :=
            ltKey_trans hb hlt
          rw [habs] at hz
          exact absurd hz (by simp)
      · rw [hx]
        exact ih z z (by simp)
      · exact ih z x (by simp [hx])
    · rw [if_neg hlt]
      have hltf : ltKey (date_key r) (date_key z) = false := by
        cases h : ltKey (date_key r) (date_key z)
        · rfl
        · exact absurd h hlt
      rcases hx with hx | hx | hx
      · subst hx
        exact ih x x (by simp)
      · -- x = z, which lost the comparison with r: the pick cannot lose to it
        rw [hx]
        have hr := ih r r (by simp)
        cases hb : ltKey (date_key (pickNewest r zs)) (date_key z) with
        | false => rfl
        | true =>
          have habs : ltKey (date_key (pickNewest r zs)) (date_key r) = true :=
            ltKey_lt_of_not_lt hb hltf
          rw [habs] at hr
          exact absurd hr (by simp)
      · exact ih r x (by simp [hx])

theorem lookupGroup_addToGroup (l : List (String × List Record)) (r : Record) (s : String) :
    lookupGroup (addToGroup l r) s =
      if r.serial_number = s then lookupGroup l s ++ [r] else lookupGroup l s := by
  induction l with
  | nil =>
    by_cases h : r.serial_number = s <;>
      simp [addToGroup, lookupGroup, h]
  | cons p rest ih =>
    obtain ⟨k, g⟩ := p
    by_cases h1 : r.serial_number = k
    · by_cases h2 : k = s
      · simp [addToGroup, lookupGroup, h1, h2, h1.trans h2]
      · have h3 : ¬ r.serial_number = s := fun hs => h2 (h1.symm.trans hs)
        simp [addToGroup, lookupGroup, h1, h2, h3]
    · by_cases h2 : k = s
      · have h3 : ¬ r.serial_number = s := fun hs => h1 (hs.trans h2.symm)
        simp [addToGroup, lookupGroup, h1, h2, h3]
      · simp [addToGroup, lookupGroup, h1, h2, ih]

theorem lookupGroup_foldl (rs : List Record) :
    ∀ (l : List (String × List Record)) (s : String),
      lookupGroup (List.foldl addToGroup l rs) s =
        lookupGroup l s ++ rs.filter (fun r => r.serial_number = s) := by
  induction rs with
  | nil => intro l s; simp
  | cons r rs ih =>
    intro l s
    rw [List.foldl_cons, ih, lookupGroup_addToGroup]
    by_cases h : r.serial_number = s
    · simp [h, List.filter_cons, List.append_assoc]
    · simp [h, List.filter_cons]

theorem lookupGroup_groupBySerial (rs : List Record) (s : String) :
    lookupGroup (groupBySerial rs) s = rs.filter (fun r => r.serial_number = s) := by
  have := lookupGroup_foldl rs [] s
  simpa [groupBySerial, lookupGroup] using this

theorem keys_addToGroup (l : List (String × List Record)) (r : Record) :
    keysOf (addToGroup l r) =
      if r.serial_number ∈ keysOf l then keysOf l else keysOf l ++ [r.serial_number] := by
  induction l with
  | nil => simp [addToGroup, keysOf]
  | cons p rest ih =>
    obtain ⟨k, g⟩ := p
    by_cases h1 : r.serial_number = k
    · simp [addToGroup, keysOf, h1]
    · rw [show addToGroup ((k, g) :: rest) r = (k, g) :: addToGroup rest r by
        simp [addToGroup, h1]]
      by_cases h2 : r.serial_number ∈ keysOf rest
      · have hmem : r.serial_number ∈ keysOf ((k, g) :: rest) := by
          simp [keysOf] at h2 ⊢
          exact Or.inr h2
        rw [if_pos hmem]
        have heq : keysOf (addToGroup rest r) = keysOf rest := by rw [ih, if_pos h2]
        simp [keysOf] at heq ⊢
        simp [heq]
      · have hmem : r.serial_number ∉ keysOf ((k, g) :: rest) := by
          simp [keysOf] at h2 ⊢
          exact ⟨h1, h2⟩
        rw [if_neg hmem]
        have heq : keysOf (addToGroup rest r) = keysOf rest ++ [r.serial_number] := by
          rw [ih, if_neg h2]
        simp [keysOf] at heq ⊢
        simp [heq]

theorem keys_foldl_mem (rs : List Record) :
    ∀ (l : List (String × List Record)) (s : String),
      s ∈ keysOf (List.foldl addToGroup l rs) ↔
        s ∈ keysOf l ∨ s ∈ rs.map (·.serial_number) := by
  induction rs with
  | nil => intro l s; simp
  | cons r rs ih =>
    intro l s
    rw [List.foldl_cons, ih, keys_addToGroup]
    by_cases h : r.serial_number ∈ keysOf l
    · rw [if_pos h]
      by_cases hs : s = r.serial_number
      · subst hs
        simp [h]
      · simp [hs]
    · rw [if_neg h]
      simp only [List.mem_append, List.mem_singleton, List.map_cons, List.mem_cons]
      tauto

theorem keys_foldl_nodup (rs : List Record) :
    ∀ (l : List (String × List Record)), (keysOf l).Nodup →
      (keysOf (List.foldl addToGroup l rs)).Nodup := by
  induction rs with
  | nil => intro l h; simpa using h
  | cons r rs ih =>
    intro l h
    rw [List.foldl_cons]
    refine ih _ ?_
    rw [keys_addToGroup]
    by_cases hm : r.serial_number ∈ keysOf l
    · rwa [if_pos hm]
    · rw [if_neg hm]
      simp [List.nodup_append, h, hm]

theorem keys_groupBySerial_nodup (rs : List Record) :
    (keysOf (groupBySerial rs)).Nodup :=
  keys_foldl_nodup rs [] (by simp [keysOf])

theorem keys_groupBySerial_mem (rs : List Record) (s : String) :
    s ∈ keysOf (groupBySerial rs) ↔ s ∈ rs.map (·.serial_number) := by
  have := keys_foldl_mem rs [] s
  simpa [groupBySerial, keysOf] using this

theorem mem_group_eq_lookup :
    ∀ (l : List (String × List Record)), (keysOf l).Nodup →
      ∀ (k : String) (g : List Record), (k, g) ∈ l → lookupGroup l k = g := by
  intro l
  induction l with
  | nil => intro _ k g h; simp at h
  | cons p rest ih =>
    intro hn k g hmem
    obtain ⟨k0, g0⟩ := p
    simp only [keysOf, List.map_cons, List.nodup_cons] at hn
    rcases List.mem_cons.mp hmem with h | h
    · have hk : k = k0 := congrArg Prod.fst h
      have hg : g = g0 := congrArg Prod.snd h
      subst hk
      subst hg
      simp [lookupGroup]
    · have hk0 : k0 ≠ k := by
        intro he
        subst he
        exact hn.1 (by
          have : (k0, g) ∈ rest := h
          simpa [keysOf] using List.mem_map_of_mem Prod.fst this)
      simp only [lookupGroup, if_neg hk0]
      exact ih hn.2 k g h

theorem group_spec (rs : List Record) (k : String) (g : List Record)
    (h : (k, g) ∈ groupBySerial rs) :
    g = rs.filter (fun r => r.serial_number = k) := by
  have hl := mem_group_eq_lookup (groupBySerial rs) (keys_groupBySerial_nodup rs) k g h
  rw [← hl, lookupGroup_groupBySerial]

theorem pickGroup_eq (k : String) (r : Record) (rest : List Record) :
    pickGroup (k, r :: rest) = some (pickNewest r rest) := by
  cases rest with
  | nil => simp [pickGroup, pickNewest]
  | cons z zs => simp [pickGroup]

theorem dedup_serial_aux :
    ∀ (gl : List (String × List Record)),
      (∀ p ∈ gl, ∀ r ∈ p.2, r.serial_number = p.1) →
      (∀ p ∈ gl, p.2 ≠ []) →
      (gl.filterMap pickGroup).map (·.serial_number) = keysOf gl := by
  intro gl
  induction gl with
  | nil => intro _ _; simp [keysOf]
  | cons p gl ih =>
    intro hall hne
    obtain ⟨k, g⟩ := p
    cases g with
    | nil => exact absurd rfl (hne (k, []) (List.mem_cons_self _ _))
    | cons r rest =>
      rw [List.filterMap_cons, pickGroup_eq]
      have hpm : pickNewest r rest ∈ r :: rest := by
        rcases pickNewest_mem r rest with h | h
        · rw [h]; exact List.mem_cons_self _ _
        · exact List.mem_cons_of_mem _ h
      have hser : (pickNewest r rest).serial_number = k :=
        hall (k, r :: rest) (List.mem_cons_self _ _) _ hpm
      simp only [List.map_cons, hser, keysOf]
      have := ih (fun p hp => hall p (List.mem_cons_of_mem _ hp))
        (fun p hp => hne p (List.mem_cons_of_mem _ hp))
      simp only [keysOf] at this
      rw [this]

theorem dedup_serials (rs : List Record) :
    (_deduplicate_records rs).map (·.serial_number) = keysOf (groupBySerial rs) := by
  refine dedup_serial_aux (groupBySerial rs) ?_ ?_
  · intro p hp r hr
    obtain ⟨k, g⟩ := p
    have := group_spec rs k g hp
    subst this
    simpa using (List.mem_filter.mp hr).2
  · intro p hp
    obtain ⟨k, g⟩ := p
    have hg := group_spec rs k g hp
    have hk : k ∈ keysOf (groupBySerial rs) := by
      simpa [keysOf] using List.mem_map_of_mem Prod.fst hp
    rw [keys_groupBySerial_mem] at hk
    obtain ⟨r, hr, hser⟩ := List.mem_map.mp hk
    intro hnil
    have hnil' : g = [] := hnil
    have : r ∈ g := by
      rw [hg]
      exact List.mem_filter.mpr ⟨hr, by simpa using hser⟩
    rw [hnil'] at this
    simp at this

theorem dedup_serials_nodup (rs : List Record) :
    ((_deduplicate_records rs).map (·.serial_number)).Nodup := by
  rw [dedup_serials]
  exact keys_groupBySerial_nodup rs

theorem dedup_mem_serials (rs : List Record) (s : String) :
    s ∈ (_deduplicate_records rs).map (·.serial_number) ↔
      s ∈ rs.map (·.serial_number) := by
  rw [dedup_serials]
  exact keys_groupBySerial_mem rs s

theorem dedup_sound (rs : List Record) (r0 : Record)
    (h : r0 ∈ _deduplicate_records rs) :
    r0 ∈ rs ∧ ∀ r' ∈ rs, r'.serial_number = r0.serial_number →
      ltKey (date_key r0) (date_key r') = false := by
  obtain ⟨p, hp, hpick⟩ := List.mem_filterMap.mp h
  obtain ⟨k, g⟩ := p
  cases g with
  | nil => simp [pickGroup] at hpick
  | cons r rest =>
    rw [pickGroup_eq] at hpick
    have hr0 : r0 = pickNewest r rest := (Option.some.injEq .. ▸ hpick).symm
    have hgs := group_spec rs k (r :: rest) hp
    have hpm : r0 ∈ r :: rest := by
      rw [hr0]
      rcases pickNewest_mem r rest with h' | h'
      · rw [h']; exact List.mem_cons_self _ _
      · exact List.mem_cons_of_mem _ h'
    have hmemf : r0 ∈ rs.filter (fun r => r.serial_number = k) := hgs ▸ hpm
    have hr0rs : r0 ∈ rs := (List.mem_filter.mp hmemf).1
    have hr0k : r0.serial_number = k := by
      simpa using (List.mem_filter.mp hmemf).2
    refine ⟨hr0rs, ?_⟩
    intro r' hr' hser
    have : r' ∈ r :: rest := by
      rw [hgs]
      exact List.mem_filter.mpr ⟨hr', by simp [hser, hr0k]⟩
    rw [hr0]
    exact pickNewest_max r rest r' this

theorem rowOfRecord_serial (r : Record) :
    (rowOfRecord r).serial_number = r.serial_number := rfl

theorem lookup_upsertRow_self (tbl : List TMRow) (v : RowVals) (t : Nat) :
    lookupTM (upsertRow tbl v t) v.serial_number =
      some ⟨v, createdOf (lookupTM tbl v.serial_number) t, t⟩ := by
  induction tbl with
  | nil => simp [upsertRow, lookupTM, createdOf]
  | cons row tl ih =>
    by_cases h : row.vals.serial_number = v.serial_number
    · simp [upsertRow, lookupTM, h, createdOf, List.find?_cons]
    · simp only [upsertRow, if_neg h]
      rw [show lookupTM (row :: upsertRow tl v t) v.serial_number =
            lookupTM (upsertRow tl v t) v.serial_number by
          simp [lookupTM, List.find?_cons, h]]
      rw [show lookupTM (row :: tl) v.serial_number = lookupTM tl v.serial_number by
          simp [lookupTM, List.find?_cons, h]]
      exact ih

theorem lookup_upsertRow_other (tbl : List TMRow) (v : RowVals) (t : Nat)
    (s : String) (h : s ≠ v.serial_number) :
    lookupTM (upsertRow tbl v t) s = lookupTM tbl s := by
  induction tbl with
  | nil => simp [upsertRow, lookupTM, Ne.symm h]
  | cons row tl ih =>
    by_cases hr : row.vals.serial_number = v.serial_number
    · have hrs : ¬ row.vals.serial_number = s := fun he => h (he.symm.trans hr)
      simp [upsertRow, lookupTM, hr, hrs, Ne.symm h, List.find?_cons]
    · simp only [upsertRow, if_neg hr]
      by_cases hrs : row.vals.serial_number = s
      · simp [lookupTM, List.find?_cons, hrs]
      · simp only [lookupTM, List.find?_cons] at ih ⊢
        simp [hrs, ih]

theorem lookup_upsertRow_isSome (tbl : List TMRow) (v : RowVals) (t : Nat)
    (s : String) (h : (lookupTM tbl s).isSome) :
    (lookupTM (upsertRow tbl v t) s).isSome := by
  by_cases hs : s = v.serial_number
  · subst hs
    rw [lookup_upsertRow_self]
    rfl
  · rwa [lookup_upsertRow_other tbl v t s hs]

theorem length_upsertRow_of_isSome (tbl : List TMRow) (v : RowVals) (t : Nat)
    (h : (lookupTM tbl v.serial_number).isSome) :
    (upsertRow tbl v t).length = tbl.length := by
  induction tbl with
  | nil => simp [lookupTM] at h
  | cons row tl ih =>
    by_cases hr : row.vals.serial_number = v.serial_number
    · simp [upsertRow, hr]
    · simp only [lookupTM, List.find?_cons] at h
      rw [show (decide (row.vals.serial_number = v.serial_number)) = false by
          simp [hr]] at h
      simp only [upsertRow, if_neg hr, List.length_cons]
      rw [ih h]

theorem foldUpsert_cons (tbl : List TMRow) (v : RowVals) (vs : List RowVals) (t : Nat) :
    foldUpsert tbl (v :: vs) t = foldUpsert (upsertRow tbl v t) vs t := rfl

theorem foldUpsert_not_mem :
    ∀ (vs : List RowVals) (tbl : List TMRow) (t : Nat) (s : String),
      s ∉ vs.map (·.serial_number) →
      lookupTM (foldUpsert tbl vs t) s = lookupTM tbl s := by
  intro vs
  induction vs with
  | nil => intro tbl t s _; rfl
  | cons v vs ih =>
    intro tbl t s hs
    simp only [List.map_cons, List.mem_cons, not_or] at hs
    rw [foldUpsert_cons, ih _ t s hs.2,
      lookup_upsertRow_other tbl v t s hs.1]

theorem foldUpsert_lookup :
    ∀ (vs : List RowVals) (tbl : List TMRow) (t : Nat) (s : String),
      (vs.map (·.serial_number)).Nodup →
      lookupTM (foldUpsert tbl vs t) s =
        match vs.find? (fun v => v.serial_number = s) with
        | some v => some ⟨v, createdOf (lookupTM tbl s) t, t⟩
        | none => lookupTM tbl s := by
  intro vs
  induction vs with
  | nil => intro tbl t s _; rfl
  | cons v vs ih =>
    intro tbl t s hnd
    simp only [List.map_cons, List.nodup_cons] at hnd
    by_cases hs : v.serial_number = s
    · have hnotin : s ∉ vs.map (·.serial_number) := by
        rw [← hs]; exact hnd.1
      rw [foldUpsert_cons, foldUpsert_not_mem vs _ t s hnotin]
      rw [List.find?_cons_of_pos _ (by simp [hs])]
      subst hs
      exact lookup_upsertRow_self tbl v t
    · rw [foldUpsert_cons, ih _ t s hnd.2,
        List.find?_cons_of_neg _ (by simp [hs])]
      have hne : s ≠ v.serial_number := fun he => hs he.symm
      cases hfind : vs.find? (fun w => w.serial_number = s) with
      | some w => rw [lookup_upsertRow_other tbl v t s hne]
      | none => exact lookup_upsertRow_other tbl v t s hne

theorem foldUpsert_length :
    ∀ (vs : List RowVals) (tbl : List TMRow) (t : Nat),
      (∀ v ∈ vs, (lookupTM tbl v.serial_number).isSome) →
      (foldUpsert tbl vs t).length = tbl.length := by
  intro vs
  induction vs with
  | nil => intro tbl t _; rfl
  | cons v vs ih =>
    intro tbl t h
    rw [foldUpsert_cons, ih _ t, length_upsertRow_of_isSome tbl v t
      (h v (List.mem_cons_self _ _))]
    intro w hw
    exact lookup_upsertRow_isSome tbl v t _ (h w (List.mem_cons_of_mem _ hw))

theorem upsertWriteList_serials (records : List Record) :
    (upsertWriteList records).map (·.serial_number) =
      (sortBySerial (_deduplicate_records records)).map (·.serial_number) := by
  simp [upsertWriteList, rowOfRecord]

theorem upsertWriteList_serials_nodup (records : List Record) :
    ((upsertWriteList records).map (·.serial_number)).Nodup := by
  rw [upsertWriteList_serials]
  have hperm : List.Perm (sortBySerial (_deduplicate_records records))
      (_deduplicate_records records) :=
    List.perm_insertionSort serialLE _
  exact ((hperm.map (·.serial_number)).nodup_iff).mpr (dedup_serials_nodup records)

theorem processItems_malformed (bs : Nat) :
    ∀ (pre post : List XmlItem) (buf : List Record) (acc : Nat),
      processItems bs (pre ++ XmlItem.malformed :: post) buf acc =
        processItems bs (pre ++ [XmlItem.malformed]) buf acc := by
  intro pre
  induction pre with
  | nil => intro post buf acc; rfl
  | cons i pre ih =>
    intro post buf acc
    cases i with
    | malformed => rfl
    | caseFile e =>
      simp only [List.cons_append, processItems]
      cases parse_case_file e with
      | none => exact ih post buf acc
      | some r =>
        by_cases hb : bs ≤ (buf ++ [r]).length
        · simp only [if_pos hb]
          exact ih post [] _
        · simp only [if_neg hb]
          exact ih post _ acc

theorem coord_foldl_init :
    ∀ (l : List (String × Nat × Option String)) (a : Nat),
      l.foldl (fun acc res =>
        match res.2.2 with
        | none => acc + res.2.1
        | some _ => acc) a =
      a + l.foldl (fun acc res =>
        match res.2.2 with
        | none => acc + res.2.1
        | some _ => acc) 0 := by
  intro l
  induction l with
  | nil => intro a; simp
  | cons res l ih =>
    intro a
    cases hres : res.2.2 with
    | none =>
      simp only [List.foldl_cons, hres]
      rw [ih (a + res.2.1), ih (0 + res.2.1)]
      omega
    | some msg =>
      simp only [List.foldl_cons, hres]
      rw [ih a]

theorem allCodes_aux (f : ClassificationElem → List String) :
    ∀ (gs : List ClassificationElem) (l : List String),
      gs.foldl (fun acc c => acc ++ f c) l = l ++ allCodes f gs := by
  intro gs
  induction gs with
  | nil => intro l; simp [allCodes]
  | cons g gs ih =>
    intro l
    show List.foldl _ (l ++ f g) gs = _
    rw [ih (l ++ f g)]
    have hc : allCodes f (g :: gs) = ([] ++ f g) ++ allCodes f gs := by
      show List.foldl _ ([] ++ f g) gs = _
      rw [ih ([] ++ f g)]
    rw [hc]
    simp [List.append_assoc]

theorem allCodes_cons (f : ClassificationElem → List String) (g : ClassificationElem)
    (gs : List ClassificationElem) :
    allCodes f (g :: gs) = f g ++ allCodes f gs := by
  show List.foldl _ ([] ++ f g) gs = _
  rw [allCodes_aux f gs ([] ++ f g)]
  simp

theorem class_fold_intl (gs : List ClassificationElem) :
    ∀ acc : ClassAcc,
      (gs.foldl classStep acc).intl =
        acc.intl ++ allCodes (·.international_codes) gs := by
  induction gs with
  | nil => intro acc; simp [allCodes]
  | cons g gs ih =>
    intro acc
    rw [List.foldl_cons, ih (classStep acc g), allCodes_cons]
    show (acc.intl ++ g.international_codes) ++ _ = _
    simp [List.append_assoc]

theorem class_fold_us (gs : List ClassificationElem) :
    ∀ acc : ClassAcc,
      (gs.foldl classStep acc).us = acc.us ++ allCodes (·.us_codes) gs := by
  induction gs with
  | nil => intro acc; simp [allCodes]
  | cons g gs ih =>
    intro acc
    rw [List.foldl_cons, ih (classStep acc g), allCodes_cons]
    show (acc.us ++ g.us_codes) ++ _ = _
    simp [List.append_assoc]

theorem class_fold_primary (gs : List ClassificationElem) :
    ∀ acc : ClassAcc,
      (gs.foldl classStep acc).primary =
        (gs.map (·.primary_code)).foldl orFirst acc.primary := by
  induction gs with
  | nil => intro acc; rfl
  | cons g gs ih =>
    intro acc
    rw [List.foldl_cons, ih (classStep acc g)]
    rfl

theorem class_fold_fua (gs : List ClassificationElem) :
    ∀ acc : ClassAcc,
      (gs.foldl classStep acc).fua =
        (gs.map (fun c => parse_date c.first_use_anywhere_date)).foldl orFirst acc.fua := by
  induction gs with
  | nil => intro acc; rfl
  | cons g gs ih =>
    intro acc
    rw [List.foldl_cons, ih (classStep acc g)]
    rfl

theorem class_fold_fuc (gs : List ClassificationElem) :
    ∀ acc : ClassAcc,
      (gs.foldl classStep acc).fuc =
        (gs.map (fun c => parse_date c.first_use_in_commerce_date)).foldl orFirst acc.fuc := by
  induction gs with
  | nil => intro acc; rfl
  | cons g gs ih =>
    intro acc
    rw [List.foldl_cons, ih (classStep acc g)]
    rfl

theorem char_toNat_inj {a b : Char} (h : a.toNat = b.toNat) : a = b :=
  Char.eq_of_val_eq (UInt32.ext h)

theorem ltChars_irrefl : ∀ x : List Char, ltChars x x = false := by
  intro x
  induction x with
  | nil => rfl
  | cons a as ih => simp [ltChars, ih]

theorem ltChars_false_iff :
    ∀ x y : List Char, ltChars y x = false ↔ (ltChars x y = true ∨ x = y) := by
  intro x
  induction x with
  | nil =>
    intro y
    cases y with
    | nil => simp [ltChars]
    | cons b bs => simp [ltChars]
  | cons a as ih =>
    intro y
    cases y with
    | nil => simp [ltChars]
    | cons b bs =>
      by_cases hlt : a.toNat < b.toNat
      · have h1 : ¬ b.toNat < a.toNat := by omega
        simp [ltChars, hlt, h1]
      · by_cases hgt : b.toNat < a.toNat
        · have hne : ¬ (a = b) := fun he => by subst he; omega
          simp [ltChars, hlt, hgt, hne]
        · have heq : a = b := char_toNat_inj (by omega)
          subst heq
          simp [ltChars, hlt, hgt, ih bs]

theorem ltChars_trans :
    ∀ x y z : List Char, ltChars x y = true → ltChars y z = true →
      ltChars x z = true := by
  intro x
  induction x with
  | nil =>
    intro y z hxy hyz
    cases z with
    | nil =>
      cases y with
      | nil => exact hxy
      | cons b bs => simp [ltChars] at hyz
    | cons c cs => simp [ltChars]
  | cons a as ih =>
    intro y z hxy hyz
    cases y with
    | nil => simp [ltChars] at hxy
    | cons b bs =>
      cases z with
      | nil => simp [ltChars] at hyz
      | cons c cs =>
        simp only [ltChars] at hxy hyz ⊢
        by_cases hab : a.toNat < b.toNat
        · by_cases hbc : b.toNat < c.toNat
          · simp [show a.toNat < c.toNat by omega]
          · by_cases hcb : c.toNat < b.toNat
            · simp [hbc, hcb] at hyz
            · have : b = c := char_toNat_inj (by omega)
              subst this
              simp [hab]
        · by_cases hba : b.toNat < a.toNat
          · simp [hab, hba] at hxy
          · have : a = b := char_toNat_inj (by omega)
            subst this
            simp [hab, hba] at hxy ⊢
            by_cases hac : a.toNat < c.toNat
            · simp [hac]
            · by_cases hca : c.toNat < a.toNat
              · simp [hac, hca] at hyz
              · simp [hac, hca] at hyz ⊢
                exact ⟨by omega, ih bs cs hxy hyz⟩

theorem serialLE_total : ∀ a b : Record, serialLE a b ∨ serialLE b a := by
  intro a b
  by_cases h : ltChars b.serial_number.data a.serial_number.data = true
  · right
    show ltChars a.serial_number.data b.serial_number.data = false
    exact (ltChars_false_iff _ _).mpr (Or.inl h)
  · left
    show ltChars b.serial_number.data a.serial_number.data = false
    cases hb : ltChars b.serial_number.data a.serial_number.data
    · rfl
    · exact absurd hb h

theorem serialLE_trans : ∀ a b c : Record,
    serialLE a b → serialLE b c → serialLE a c := by
  intro a b c hab hbc
  have h1 := (ltChars_false_iff _ _).mp hab
  have h2 := (ltChars_false_iff _ _).mp hbc
  show ltChars c.serial_number.data a.serial_number.data = false
  refine (ltChars_false_iff _ _).mpr ?_
  rcases h1 with h1 | h1
  · rcases h2 with h2 | h2
    · exact Or.inl (ltChars_trans _ _ _ h1 h2)
    · rw [← h2]
      exact Or.inl h1
  · rcases h2 with h2 | h2
    · rw [h1]
      exact Or.inl h2
    · rw [h1, h2]
      exact Or.inr rfl

/-- C8: `parse_date` maps `"20230615"` to 2023-06-15; a missing input, the
empty string, the literal `"0"`, any string whose length is not 8, and any
8-character string that is not a valid `YYYYMMDD` calendar date map to
null; being a total function, it never raises. -/
theorem parse_date_spec :
    parse_date (some "20230615") = some ⟨2023, 6, 15⟩
    ∧ parse_date none = none
    ∧ parse_date (some "") = none
    ∧ parse_date (some "0") = none
    ∧ parse_date (some "2023061") = none
    ∧ (∀ s : String, s.length ≠ 8 → parse_date (some s) = none)
    ∧ (∀ (s : String) (d : Date), parse_date (some s) = some d → Date.valid d) := by
  refine ⟨by decide, rfl, by decide, by decide, by decide, ?_, ?_⟩
  · intro s h
    simp [parse_date, h]
  · intro s d h
    simp only [parse_date] at h
    split at h
    · exact absurd h (by simp)
    · unfold strptimeYMD at h
      split at h
      · split at h
        · unfold mkDate at h
          split at h
          · rename_i hcond
            have hd : Date.mk _ _ _ = d := Option.some.inj h
            rw [← hd]
            exact hcond
          · exact absurd h (by simp)
        · exact absurd h (by simp)
      · exact absurd h (by simp)

theorem parse_date_spec_witness : parse_date (some "1234567") = none :=
  parse_date_spec.2.2.2.2.2.1 "1234567" (by decide)

/-- C1 (code bug): `_do_upsert` never touches the `trademark_owners` or
`trademark_statements` tables — for every batch the sub-tables are left
exactly as they were — even for a record that carries owner and statement
sub-records, although the primary `trademarks` row is written. -/
theorem upsert_never_writes_subtables :
    (∀ (db : DB) (records : List Record) (t : Nat),
      (_do_upsert db records t).1.trademark_owners = db.trademark_owners
      ∧ (_do_upsert db records t).1.trademark_statements = db.trademark_statements)
    ∧ recOS.owners ≠ []
    ∧ recOS.statements ≠ []
    ∧ (_do_upsert dbEmpty [recOS] 0).1.trademark_owners = []
    ∧ (_do_upsert dbEmpty [recOS] 0).1.trademark_statements = []
    ∧ (_do_upsert dbEmpty [recOS] 0).1.trademarks ≠ [] := by
  refine ⟨fun db records t => ⟨rfl, rfl⟩, by decide, by decide, rfl, rfl, by decide⟩

/-- C7: the row writes of `_do_upsert` are issued in ascending
serial-number order for every input batch — the write list is sorted by
serial number and is a permutation of the deduplicated batch — and on the
concrete descending batch `[recB, recA]` the rows come out as
`[recA, recB]`. -/
theorem upsert_write_order :
    (∀ records : List Record,
      List.Sorted (fun a b : RowVals =>
          ltChars b.serial_number.data a.serial_number.data = false)
        (upsertWriteList records)
      ∧ List.Perm (upsertWriteList records)
          ((_deduplicate_records records).map rowOfRecord))
    ∧ upsertWriteList [recB, recA] = [rowOfRecord recA, rowOfRecord recB] := by
  haveI : IsTotal Record serialLE := ⟨serialLE_total⟩
  haveI : IsTrans Record serialLE := ⟨serialLE_trans⟩
  refine ⟨fun records => ⟨?_, ?_⟩, by decide⟩
  · have hs := List.sorted_insertionSort serialLE (_deduplicate_records records)
    show List.Pairwise _ (List.map rowOfRecord _)
    rw [List.pairwise_map]
    exact hs
  · exact (List.perm_insertionSort serialLE _).map rowOfRecord

/-- C10: a successful `upsert_batch` returns the length of the input batch
*before* intra-batch deduplication, while only one row per distinct serial
number is written; for the concrete batch `[cJan, cJun]` (two records, one
serial) the reported count is 2 but only 1 row is written. -/
theorem upsert_batch_reports_prededup_count :
    ∀ (batch : List Record) (db : DB) (t : Nat) (jitter : Nat → ℚ),
      batch ≠ [] →
      (upsert_batch batch 5 alwaysSuccess jitter db t).result = Except.ok batch.length
      ∧ (upsertWriteList batch).length = ((batch.map (·.serial_number)).dedup).length
      ∧ (upsert_batch [cJan, cJun] 5 alwaysSuccess zeroJitter dbEmpty 0).result =
          Except.ok 2
      ∧ (upsertWriteList [cJan, cJun]).length = 1 := by
  intro batch db t jitter hne
  refine ⟨?_, ?_, rfl, by decide⟩
  · cases batch with
    | nil => exact absurd rfl hne
    | cons b bs => simp [upsert_batch, runLoop, alwaysSuccess, _do_upsert]
  · have h1 : ((_deduplicate_records batch).map (·.serial_number)).toFinset =
        (batch.map (·.serial_number)).toFinset := by
      apply Finset.ext
      intro s
      simp only [List.mem_toFinset]
      exact dedup_mem_serials batch s
    calc (upsertWriteList batch).length
        = (sortBySerial (_deduplicate_records batch)).length := by
          simp [upsertWriteList]
      _ = (_deduplicate_records batch).length :=
          (List.perm_insertionSort serialLE _).length_eq
      _ = ((_deduplicate_records batch).map (·.serial_number)).length := by
          simp
      _ = ((_deduplicate_records batch).map (·.serial_number)).toFinset.card :=
          (List.toFinset_card_of_nodup (dedup_serials_nodup batch)).symm
      _ = (batch.map (·.serial_number)).toFinset.card := by rw [h1]
      _ = ((batch.map (·.serial_number)).dedup).length := by
          rw [List.card_toFinset]

theorem upsert_batch_reports_prededup_count_witness :
    (upsert_batch [recOS] 5 alwaysSuccess zeroJitter dbEmpty 0).result = Except.ok 1 := by
  have h := upsert_batch_reports_prededup_count [recOS] dbEmpty 0 zeroJitter (by simp)
  simpa using h.1

theorem runLoop_succ_success (batch : List Record) (db : DB) (t : Nat)
    (outcome : Nat → AttemptOutcome) (jitter : Nat → ℚ) (mr a rem : Nat)
    (sleeps : List ℚ) (rbs cls : Nat) (ho : outcome a = AttemptOutcome.success) :
    runLoop batch db t outcome jitter mr a (rem + 1) sleeps rbs cls =
      ⟨a + 1, sleeps.reverse, rbs, cls + 1, Except.ok (_do_upsert db batch t).2⟩ := by
  simp only [runLoop, ho]

theorem runLoop_succ_deadlock_retry (batch : List Record) (db : DB) (t : Nat)
    (outcome : Nat → AttemptOutcome) (jitter : Nat → ℚ) (mr a rem : Nat)
    (sleeps : List ℚ) (rbs cls : Nat) (ho : outcome a = AttemptOutcome.deadlock)
    (hlt : a + 1 < mr) :
    runLoop batch db t outcome jitter mr a (rem + 1) sleeps rbs cls =
      runLoop batch db t outcome jitter mr (a + 1) rem
        (((2 : ℚ) ^ a + jitter a) :: sleeps) (rbs + 1) (cls + 1) := by
  simp only [runLoop, ho, if_pos hlt]

theorem runLoop_succ_deadlock_last (batch : List Record) (db : DB) (t : Nat)
    (outcome : Nat → AttemptOutcome) (jitter : Nat → ℚ) (mr a rem : Nat)
    (sleeps : List ℚ) (rbs cls : Nat) (ho : outcome a = AttemptOutcome.deadlock)
    (hge : ¬ a + 1 < mr) :
    runLoop batch db t outcome jitter mr a (rem + 1) sleeps rbs cls =
      ⟨a + 1, sleeps.reverse, rbs + 1, cls + 1, Except.error DBErr.deadlock⟩ := by
  simp only [runLoop, ho, if_neg hge]

theorem runLoop_succ_lockTimeout_last (batch : List Record) (db : DB) (t : Nat)
    (outcome : Nat → AttemptOutcome) (jitter : Nat → ℚ) (mr a rem : Nat)
    (sleeps : List ℚ) (rbs cls : Nat) (ho : outcome a = AttemptOutcome.lockTimeout)
    (hge : ¬ a + 1 < mr) :
    runLoop batch db t outcome jitter mr a (rem + 1) sleeps rbs cls =
      ⟨a + 1, sleeps.reverse, rbs + 1, cls + 1, Except.error DBErr.lockTimeout⟩ := by
  simp only [runLoop, ho, if_neg hge]

theorem runLoop_succ_transient_retry (batch : List Record) (db : DB) (t : Nat)
    (outcome : Nat → AttemptOutcome) (jitter : Nat → ℚ) (mr a rem : Nat)
    (sleeps : List ℚ) (rbs cls : Nat)
    (ho : outcome a = AttemptOutcome.deadlock ∨ outcome a = AttemptOutcome.lockTimeout)
    (hlt : a + 1 < mr) :
    runLoop batch db t outcome jitter mr a (rem + 1) sleeps rbs cls =
      runLoop batch db t outcome jitter mr (a + 1) rem
        (((2 : ℚ) ^ a + jitter a) :: sleeps) (rbs + 1) (cls + 1) := by
  rcases ho with ho | ho <;> simp only [runLoop, ho, if_pos hlt]

/-- C4: the deduplicator returns exactly one record per distinct serial
number (the output serials are duplicate-free and cover exactly the input
serials), each retained record comes from the batch and maximizes the
`(transaction_date, status_date)` pair under lexicographic order with the
1800-01-01 sentinel for null; for the concrete same-serial pair with
transaction dates 2024-01-01 and 2024-06-01 exactly the latter survives. -/
theorem dedup_keeps_newest_per_serial :
    (∀ batch : List Record,
      ((_deduplicate_records batch).map (·.serial_number)).Nodup
      ∧ (∀ s, s ∈ (_deduplicate_records batch).map (·.serial_number) ↔
          s ∈ batch.map (·.serial_number))
      ∧ (∀ r ∈ _deduplicate_records batch, r ∈ batch ∧
          ∀ r' ∈ batch, r'.serial_number = r.serial_number →
            ltKey (date_key r) (date_key r') = false))
    ∧ _deduplicate_records [cJan, cJun] = [cJun] := by
  refine ⟨fun batch => ⟨dedup_serials_nodup batch, fun s => dedup_mem_serials batch s,
    fun r hr => dedup_sound batch r hr⟩, by decide⟩

theorem dedup_keeps_newest_per_serial_witness :
    cJun ∈ [cJan, cJun] ∧ ltKey (date_key cJun) (date_key cJan) = false := by
  have h := (dedup_keeps_newest_per_serial.1 [cJan, cJun]).2.2 cJun (by decide)
  exact ⟨h.1, h.2 cJan (by decide) (by decide)⟩

/-- C5 (counterexample): a record with both dates null *is* retained over
a same-serial record carrying the real transaction date 1800-01-01 — the
date coincides with the null sentinel, the keys tie, and the first entry
wins the stable sort. -/
theorem dedup_sentinel_counterexample :
    rNullNull.transaction_date = none
    ∧ rNullNull.status_date = none
    ∧ rSentinel.transaction_date = some ⟨1800, 1, 1⟩
    ∧ rSentinel.serial_number = rNullNull.serial_number
    ∧ _deduplicate_records [rNullNull, rSentinel] = [rNullNull] := by
  exact ⟨rfl, rfl, rfl, rfl, by decide⟩

/-- C5 (amended): a record with null transaction date and null status date
is never retained when another record of the same serial number has a
strictly newer key — i.e. any real date combination other than ones equal
to the 1800-01-01 sentinel floor. -/
theorem dedup_nullnull_never_beats_strictly_newer :
    ∀ (batch : List Record) (r r' : Record),
      r ∈ batch → r' ∈ batch → r'.serial_number = r.serial_number →
      r.transaction_date = none → r.status_date = none →
      ltKey (date1800, date1800) (date_key r') = true →
      r ∉ _deduplicate_records batch := by
  intro batch r r' _hr hr' hser htd hsd hlt hmem
  have h := dedup_sound batch r hmem
  have hmax := h.2 r' hr' hser
  have hk : date_key r = (date1800, date1800) := by
    simp [date_key, htd, hsd]
  rw [hk] at hmax
  rw [hmax] at hlt
  exact Bool.noConfusion hlt

theorem dedup_nullnull_never_beats_strictly_newer_witness :
    rNullNull ∉ _deduplicate_records [rNullNull, rNewer] := by
  exact dedup_nullnull_never_beats_strictly_newer [rNullNull, rNewer] rNullNull rNewer
    (by decide) (by decide) rfl rfl rfl (by decide)

/-- C2 (counterexample): with the default maximum of 5, five consecutive
transient failures — deadlocks or lock-wait timeouts alike — exhaust the
loop: the 5th consecutive failure propagates after only 4 backoff sleeps,
so a batch that would succeed on the 6th attempt never gets one. -/
theorem upsert_batch_fifth_failure_propagates :
    (upsert_batch [rec1] 5 fiveDeadlocksThenSuccess zeroJitter dbEmpty 0).result =
        Except.error DBErr.deadlock
    ∧ (upsert_batch [rec1] 5 fiveDeadlocksThenSuccess zeroJitter dbEmpty 0).attempts = 5
    ∧ (upsert_batch [rec1] 5 fiveDeadlocksThenSuccess zeroJitter dbEmpty 0).sleeps.length
        = 4
    ∧ (upsert_batch [rec1] 5 fiveLockTimeoutsThenSuccess zeroJitter dbEmpty 0).result =
        Except.error DBErr.lockTimeout
    ∧ (upsert_batch [rec1] 5 fiveLockTimeoutsThenSuccess zeroJitter dbEmpty 0).attempts = 5
    ∧ (upsert_batch [rec1] 5 fiveLockTimeoutsThenSuccess zeroJitter dbEmpty 0).sleeps.length
        = 4 := by
  exact ⟨rfl, rfl, rfl, rfl, rfl, rfl⟩

/-- C2 (amended): on a detected deadlock or lock-wait-exceeded error — in
any combination — `upsert_batch` rolls back, closes the connection and
retries the whole batch with backoff `2 ^ attempt` plus the drawn jitter;
with the default maximum of 5 the batch is attempted at most 5 times: the
first four consecutive transient failures are each followed by a retry,
and a 5th consecutive transient failure propagates that error to the
caller, while a success on the 5th attempt returns the batch length after
4 sleeps. -/
theorem upsert_batch_retry_policy :
    ∀ (batch : List Record) (outcome : Nat → AttemptOutcome) (jitter : Nat → ℚ)
      (db : DB) (t : Nat),
      batch ≠ [] →
      (∀ i, i < 4 → outcome i = AttemptOutcome.deadlock
        ∨ outcome i = AttemptOutcome.lockTimeout) →
      ((outcome 4 = AttemptOutcome.deadlock →
        (upsert_batch batch 5 outcome jitter db t).result = Except.error DBErr.deadlock
        ∧ (upsert_batch batch 5 outcome jitter db t).attempts = 5
        ∧ (upsert_batch batch 5 outcome jitter db t).sleeps =
            [2 ^ 0 + jitter 0, 2 ^ 1 + jitter 1, 2 ^ 2 + jitter 2, 2 ^ 3 + jitter 3]
        ∧ (upsert_batch batch 5 outcome jitter db t).rollbacks = 5
        ∧ (upsert_batch batch 5 outcome jitter db t).closes = 5)
      ∧ (outcome 4 = AttemptOutcome.lockTimeout →
        (upsert_batch batch 5 outcome jitter db t).result = Except.error DBErr.lockTimeout
        ∧ (upsert_batch batch 5 outcome jitter db t).attempts = 5
        ∧ (upsert_batch batch 5 outcome jitter db t).sleeps =
            [2 ^ 0 + jitter 0, 2 ^ 1 + jitter 1, 2 ^ 2 + jitter 2, 2 ^ 3 + jitter 3]
        ∧ (upsert_batch batch 5 outcome jitter db t).rollbacks = 5
        ∧ (upsert_batch batch 5 outcome jitter db t).closes = 5)
      ∧ (outcome 4 = AttemptOutcome.success →
        (upsert_batch batch 5 outcome jitter db t).result = Except.ok batch.length
        ∧ (upsert_batch batch 5 outcome jitter db t).attempts = 5
        ∧ (upsert_batch batch 5 outcome jitter db t).sleeps =
            [2 ^ 0 + jitter 0, 2 ^ 1 + jitter 1, 2 ^ 2 + jitter 2, 2 ^ 3 + jitter 3]
        ∧ (upsert_batch batch 5 outcome jitter db t).rollbacks = 4
        ∧ (upsert_batch batch 5 outcome jitter db t).closes = 5)) := by
  intro batch outcome jitter db t hne htr
  have h0 := htr 0 (by omega)
  have h1 := htr 1 (by omega)
  have h2 := htr 2 (by omega)
  have h3 := htr 3 (by omega)
  have hbe : batch.isEmpty = false := by
    cases batch
    · exact absurd rfl hne
    · rfl
  have hopen : upsert_batch batch 5 outcome jitter db t =
      runLoop batch db t outcome jitter 5 0 5 [] 0 0 := by
    simp [upsert_batch, hbe]
  have hchain : runLoop batch db t outcome jitter 5 0 5 [] 0 0 =
      runLoop batch db t outcome jitter 5 4 1
        [(2 : ℚ) ^ 3 + jitter 3, (2 : ℚ) ^ 2 + jitter 2,
          (2 : ℚ) ^ 1 + jitter 1, (2 : ℚ) ^ 0 + jitter 0] 4 4 := by
    rw [runLoop_succ_transient_retry batch db t outcome jitter 5 0 4 [] 0 0 h0 (by omega),
      runLoop_succ_transient_retry batch db t outcome jitter 5 1 3 _ 1 1 h1 (by omega),
      runLoop_succ_transient_retry batch db t outcome jitter 5 2 2 _ 2 2 h2 (by omega),
      runLoop_succ_transient_retry batch db t outcome jitter 5 3 1 _ 3 3 h3 (by omega)]
  refine ⟨?_, ?_, ?_⟩
  · intro h4
    rw [hopen, hchain,
      runLoop_succ_deadlock_last batch db t outcome jitter 5 4 0 _ 4 4 h4 (by omega)]
    exact ⟨rfl, rfl, rfl, rfl, rfl⟩
  · intro h4
    rw [hopen, hchain,
      runLoop_succ_lockTimeout_last batch db t outcome jitter 5 4 0 _ 4 4 h4 (by omega)]
    exact ⟨rfl, rfl, rfl, rfl, rfl⟩
  · intro h4
    rw [hopen, hchain,
      runLoop_succ_success batch db t outcome jitter 5 4 0 _ 4 4 h4]
    exact ⟨rfl, rfl, rfl, rfl, rfl⟩

theorem upsert_batch_retry_policy_witness :
    (upsert_batch [rec1] 5 mixedTransientsThenSuccess zeroJitter dbEmpty 0).result =
      Except.ok 1 := by
  have h := (upsert_batch_retry_policy [rec1] mixedTransientsThenSuccess zeroJitter
    dbEmpty 0 (by simp) (by decide)).2.2 (by decide)
  simpa using h.1

/-- C6: upserting the same batch twice yields the same `trademarks` rows
as upserting it once — every mapped column and the insert-time
`created_at` coincide and no extra row appears — with the sole exception
of `updated_at`, which is refreshed to the write time of the second
upsert for every written serial. -/
theorem upsert_idempotent :
    ∀ (db : DB) (batch : List Record) (t1 t2 : Nat),
      (∀ s, (lookupTM (_do_upsert (_do_upsert db batch t1).1 batch t2).1.trademarks s).map
            (·.vals) =
          (lookupTM (_do_upsert db batch t1).1.trademarks s).map (·.vals))
      ∧ (∀ s, (lookupTM (_do_upsert (_do_upsert db batch t1).1 batch t2).1.trademarks s).map
            (·.created_at) =
          (lookupTM (_do_upsert db batch t1).1.trademarks s).map (·.created_at))
      ∧ (_do_upsert (_do_upsert db batch t1).1 batch t2).1.trademarks.length =
          (_do_upsert db batch t1).1.trademarks.length
      ∧ (∀ v ∈ upsertWriteList batch,
          (lookupTM (_do_upsert (_do_upsert db batch t1).1 batch t2).1.trademarks
            v.serial_number).map (·.updated_at) = some t2) := by
  intro db batch t1 t2
  have hnd := upsertWriteList_serials_nodup batch
  have htb1 : (_do_upsert db batch t1).1.trademarks =
      foldUpsert db.trademarks (upsertWriteList batch) t1 := rfl
  have htb2 : (_do_upsert (_do_upsert db batch t1).1 batch t2).1.trademarks =
      foldUpsert (_do_upsert db batch t1).1.trademarks (upsertWriteList batch) t2 := rfl
  have e1 : ∀ s, lookupTM (_do_upsert db batch t1).1.trademarks s =
      match (upsertWriteList batch).find? (fun v => v.serial_number = s) with
      | some v => some ⟨v, createdOf (lookupTM db.trademarks s) t1, t1⟩
      | none => lookupTM db.trademarks s := by
    intro s
    rw [htb1]
    exact foldUpsert_lookup (upsertWriteList batch) db.trademarks t1 s hnd
  have e2 : ∀ s, lookupTM (_do_upsert (_do_upsert db batch t1).1 batch t2).1.trademarks s =
      match (upsertWriteList batch).find? (fun v => v.serial_number = s) with
      | some v =>
          some ⟨v, createdOf (lookupTM (_do_upsert db batch t1).1.trademarks s) t2, t2⟩
      | none => lookupTM (_do_upsert db batch t1).1.trademarks s := by
    intro s
    rw [htb2]
    exact foldUpsert_lookup (upsertWriteList batch) _ t2 s hnd
  refine ⟨?_, ?_, ?_, ?_⟩
  · intro s
    rw [e2 s, e1 s]
    cases hf : (upsertWriteList batch).find? (fun v => v.serial_number = s) with
    | some v => rfl
    | none => rfl
  · intro s
    rw [e2 s, e1 s]
    cases hf : (upsertWriteList batch).find? (fun v => v.serial_number = s) with
    | some v => rfl
    | none => rfl
  · rw [htb2]
    apply foldUpsert_length
    intro v hv
    rw [e1 v.serial_number]
    have hfs : ((upsertWriteList batch).find? (fun w => w.serial_number = v.serial_number)).isSome := by
      rw [List.find?_isSome]
      exact ⟨v, hv, by simp⟩
    cases hf : (upsertWriteList batch).find? (fun w => w.serial_number = v.serial_number) with
    | some w => rfl
    | none => rw [hf] at hfs; exact Bool.noConfusion hfs
  · intro v hv
    rw [e2 v.serial_number]
    have hfs : ((upsertWriteList batch).find? (fun w => w.serial_number = v.serial_number)).isSome := by
      rw [List.find?_isSome]
      exact ⟨v, hv, by simp⟩
    cases hf : (upsertWriteList batch).find? (fun w => w.serial_number = v.serial_number) with
    | some w => rfl
    | none => rw [hf] at hfs; exact Bool.noConfusion hfs

theorem upsert_idempotent_witness :
    (lookupTM (_do_upsert (_do_upsert dbEmpty [rec1] 3).1 [rec1] 7).1.trademarks
      (rowOfRecord rec1).serial_number).map (·.updated_at) = some 7 := by
  exact (upsert_idempotent dbEmpty [rec1] 3 7).2.2.2 (rowOfRecord rec1) (by decide)

/-- C9: `parse_case_file` unions the international and US codes of all
classification groups into duplicate-free sets (empty collections become
null, not an empty list; membership is exactly membership in the
concatenation of the groups), and takes the *first* non-null primary code,
first-use-anywhere date, and first-use-in-commerce date encountered across
the groups; on the concrete element whose two groups both carry `"025"`
the code occurs exactly once. -/
theorem parse_case_file_classifications :
    (∀ (e : CaseFileElem) (r : Record), parse_case_file e = some r →
      (r.international_classes =
        if allCodes (·.international_codes) (e.classifications.getD []) = [] then none
        else some (pySet (allCodes (·.international_codes) (e.classifications.getD []))))
      ∧ (∀ l, r.international_classes = some l → l.Nodup ∧
          ∀ c, c ∈ l ↔ c ∈ allCodes (·.international_codes) (e.classifications.getD []))
      ∧ (r.us_classes =
        if allCodes (·.us_codes) (e.classifications.getD []) = [] then none
        else some (pySet (allCodes (·.us_codes) (e.classifications.getD []))))
      ∧ (∀ l, r.us_classes = some l → l.Nodup ∧
          ∀ c, c ∈ l ↔ c ∈ allCodes (·.us_codes) (e.classifications.getD []))
      ∧ r.primary_class = firstNonNull ((e.classifications.getD []).map (·.primary_code))
      ∧ r.first_use_anywhere_date =
          firstNonNull ((e.classifications.getD []).map
            (fun c => parse_date c.first_use_anywhere_date))
      ∧ r.first_use_in_commerce_date =
          firstNonNull ((e.classifications.getD []).map
            (fun c => parse_date c.first_use_in_commerce_date)))
    ∧ (parse_case_file e025).map (fun r => (r.international_classes.getD []).count "025") =
        some 1
    ∧ (parse_case_file e025).map (·.primary_class) = some (some "025") := by
  refine ⟨?_, by decide, by decide⟩
  intro e r h
  cases he : e.serial_number with
  | none => simp [parse_case_file, he] at h
  | some serial =>
    by_cases hs : serial = ""
    · simp [parse_case_file, he, hs] at h
    · simp only [parse_case_file, he, if_neg hs] at h
      have hr := Option.some.inj h
      have hintl := class_fold_intl (e.classifications.getD [])
        ⟨[], [], none, none, none⟩
      have hus := class_fold_us (e.classifications.getD [])
        ⟨[], [], none, none, none⟩
      simp only [List.nil_append] at hintl hus
      have hic : r.international_classes =
          (if allCodes (·.international_codes) (e.classifications.getD []) = [] then none
           else some (pySet (allCodes (·.international_codes)
             (e.classifications.getD [])))) := by
        rw [← hr]
        show (if _ = ([] : List String) then none else some _) = _
        rw [hintl]
      have huc : r.us_classes =
          (if allCodes (·.us_codes) (e.classifications.getD []) = [] then none
           else some (pySet (allCodes (·.us_codes) (e.classifications.getD [])))) := by
        rw [← hr]
        show (if _ = ([] : List String) then none else some _) = _
        rw [hus]
      refine ⟨hic, ?_, huc, ?_, ?_, ?_, ?_⟩
      · intro l hl
        rw [hic] at hl
        split at hl
        · exact absurd hl (by simp)
        · have hl' := Option.some.inj hl
          rw [← hl']
          exact ⟨List.nodup_dedup _, fun c => List.mem_dedup⟩
      · intro l hl
        rw [huc] at hl
        split at hl
        · exact absurd hl (by simp)
        · have hl' := Option.some.inj hl
          rw [← hl']
          exact ⟨List.nodup_dedup _, fun c => List.mem_dedup⟩
      · rw [← hr]
        show ((e.classifications.getD []).foldl classStep
          ⟨[], [], none, none, none⟩).primary = _
        rw [class_fold_primary]
        rfl
      · rw [← hr]
        show ((e.classifications.getD []).foldl classStep
          ⟨[], [], none, none, none⟩).fua = _
        rw [class_fold_fua]
        rfl
      · rw [← hr]
        show ((e.classifications.getD []).foldl classStep
          ⟨[], [], none, none, none⟩).fuc = _
        rw [class_fold_fuc]
        rfl

theorem parse_case_file_classifications_witness :
    r025.primary_class =
      firstNonNull ((e025.classifications.getD []).map (·.primary_code)) := by
  exact (parse_case_file_classifications.1 e025 r025 (by decide)).2.2.2.2.1

/-- C3 (counterexample): in a three-file run whose second file is
corrupted, the coordinator still reports the counts of files 1 and 3, but
the corrupted file comes back as `(file, 0, None)` — the parse error is
only logged, never attributed in the result tuple. -/
theorem coordinator_parse_failure_counterexample :
    (process_files_parallel 2 [fGood1, fCorrupt, fGood3]).1 =
      [("f1.xml", 1, none), ("f2.xml", 0, none), ("f3.xml", 1, none)]
    ∧ (process_files_parallel 2 [fGood1, fCorrupt, fGood3]).2 = 2 := by
  exact ⟨by decide, by decide⟩

/-- C3 (amended): a document-level parse failure in one file stops only
that file: every other file's worker result is reported unchanged, the
corrupted file is reported with the records flushed before the failure and
*no* error value (the error is only logged), the items after the failure
point are never processed, and the aggregate total is the sum over all
files including the corrupted file's partial count. -/
theorem coordinator_parse_failure_isolation :
    ∀ (bs : Nat) (fs1 fs2 : List SourceFile) (p : String) (pre post : List XmlItem),
      (process_files_parallel bs
          (fs1 ++ ⟨p, FileContent.xmlDoc (pre ++ XmlItem.malformed :: post)⟩ :: fs2)).1 =
        fs1.map (worker_process_file bs) ++
          (p, process_xml_file bs (pre ++ [XmlItem.malformed]), none) ::
            fs2.map (worker_process_file bs)
      ∧ (process_files_parallel bs
          (fs1 ++ ⟨p, FileContent.xmlDoc (pre ++ XmlItem.malformed :: post)⟩ :: fs2)).2 =
        (process_files_parallel bs fs1).2
          + process_xml_file bs (pre ++ [XmlItem.malformed])
          + (process_files_parallel bs fs2).2 := by
  intro bs fs1 fs2 p pre post
  have hw : worker_process_file bs ⟨p, FileContent.xmlDoc (pre ++ XmlItem.malformed :: post)⟩ =
      (p, process_xml_file bs (pre ++ [XmlItem.malformed]), none) := by
    simp only [worker_process_file]
    rw [show process_xml_file bs (pre ++ XmlItem.malformed :: post) =
        process_xml_file bs (pre ++ [XmlItem.malformed]) from
      processItems_malformed bs pre post [] 0]
  constructor
  · simp only [process_files_parallel, List.map_append, List.map_cons, hw]
  · simp only [process_files_parallel, List.map_append, List.map_cons, hw,
      List.foldl_append, List.foldl_cons]
    rw [coord_foldl_init]
